import Mathlib

/-!
Verification of the ochipin/request HTTP client library (request.go).

The Go source is shallowly embedded: each Go function that the claims
depend on is translated into an executable Lean definition.  Platform
library functions used by the source (net/url parsing and query encoding,
encoding/base64, encoding/json) are modelled from their documented Go
behaviour, restricted to the inputs the library feeds them.  Go maps are
modelled as association lists with unique keys; map iteration order is
fixed to first-appearance order (the claims never depend on Go's random
iteration order, only on per-key value order, which is preserved).
-/

set_option autoImplicit false

namespace RequestLib

/-! ## Bytes and hexadecimal helpers -/

/-- UTF-8 encoding of a single character, as a list of byte values.
Mirrors how Go lays out a string's bytes. -/
def utf8Bytes (c : Char) : List Nat :=
  let n := c.toNat
  if n < 0x80 then [n]
  else if n < 0x800 then [0xC0 + n / 64, 0x80 + n % 64]
  else if n < 0x10000 then
    [0xE0 + n / 4096, 0x80 + (n / 64) % 64, 0x80 + n % 64]
  else
    [0xF0 + n / 262144, 0x80 + (n / 4096) % 64, 0x80 + (n / 64) % 64, 0x80 + n % 64]

/-- The bytes of a string (UTF-8), as Go sees a string value. -/
def strBytes (s : String) : List Nat :=
  s.data.foldr (fun c acc => utf8Bytes c ++ acc) []

/-- Upper-case hexadecimal digit for a value below 16. -/
def hexUpper (n : Nat) : Char :=
  if n < 10 then Char.ofNat (48 + n) else Char.ofNat (55 + n)

/-- Two upper-case hex digits of a byte, as Go's net/url percent-escaping emits. -/
def byteHexUpper (n : Nat) : String :=
  String.mk [hexUpper (n / 16), hexUpper (n % 16)]

/-- Numeric value of a hexadecimal digit character, if it is one. -/
def hexVal (c : Char) : Option Nat :=
  if '0' ≤ c ∧ c ≤ '9' then some (c.toNat - 48)
  else if 'a' ≤ c ∧ c ≤ 'f' then some (c.toNat - 87)
  else if 'A' ≤ c ∧ c ≤ 'F' then some (c.toNat - 55)
  else none

/-! ## Go net/url query escaping (url.QueryEscape / url.QueryUnescape) -/

/-- Characters Go's url.QueryEscape leaves unescaped. -/
def isUnreservedQueryChar (c : Char) : Bool :=
  (('A' ≤ c ∧ c ≤ 'Z') ∨ ('a' ≤ c ∧ c ≤ 'z') ∨ ('0' ≤ c ∧ c ≤ '9')
    ∨ c = '-' ∨ c = '_' ∨ c = '.' ∨ c = '~' : Bool)

/-- Escaping of one character in query position: unreserved characters pass,
space becomes a plus sign, everything else is percent-escaped byte-wise. -/
def queryEscapeChar (c : Char) : String :=
  if isUnreservedQueryChar c then String.mk [c]
  else if c = ' ' then "+"
  else String.join ((utf8Bytes c).map (fun b => "%" ++ byteHexUpper b))

/-- Model of Go's url.QueryEscape. -/
def queryEscape (s : String) : String :=
  String.join (s.data.map queryEscapeChar)

/-- Percent/plus decoding of a character list in query position.  Returns
none on a malformed percent escape, as Go's url.QueryUnescape errors.
Decoded bytes are read back as characters (the claims only exercise
ASCII data, where this agrees with Go byte-for-byte). -/
def unescapeQueryChars : List Char → Option (List Char)
  | [] => some []
  | '%' :: c1 :: c2 :: rest =>
    match hexVal c1, hexVal c2 with
    | some h1, some h2 =>
      (unescapeQueryChars rest).map (fun tl => Char.ofNat (16 * h1 + h2) :: tl)
    | _, _ => none
  | '%' :: _ :: [] => none
  | '%' :: [] => none
  | '+' :: rest => (unescapeQueryChars rest).map (fun tl => ' ' :: tl)
  | c :: rest => (unescapeQueryChars rest).map (fun tl => c :: tl)

/-- Model of Go's url.QueryUnescape. -/
def queryUnescape (s : String) : Option String :=
  (unescapeQueryChars s.data).map String.mk

/-! ## Go encoding/base64 StdEncoding -/

/-- The standard base64 alphabet. -/
def b64Alphabet : List Char :=
  "ABCDEFGHIJKLMNOPQRSTUVWXYZabcdefghijklmnopqrstuvwxyz0123456789+/".data

/-- Character of a six-bit group. -/
def b64Char (n : Nat) : Char := b64Alphabet.getD n 'A'

/-- Model of Go's base64.StdEncoding.EncodeToString over a byte list,
with the standard trailing padding. -/
def base64Encode : List Nat → String
  | [] => ""
  | [b1] => String.mk [b64Char (b1 / 4), b64Char (b1 % 4 * 16)] ++ "=="
  | [b1, b2] =>
    String.mk [b64Char (b1 / 4), b64Char (b1 % 4 * 16 + b2 / 16),
      b64Char (b2 % 16 * 4)] ++ "="
  | b1 :: b2 :: b3 :: rest =>
    String.mk [b64Char (b1 / 4), b64Char (b1 % 4 * 16 + b2 / 16),
      b64Char (b2 % 16 * 4 + b3 / 64), b64Char (b3 % 64)] ++ base64Encode rest

/-! ## Model of Go encoding/json -/

/-- JSON values.  Numbers keep their source lexeme: the library never
inspects numeric values, it only needs to classify shapes. -/
inductive Json where
  | null
  | bool (b : Bool)
  | num (lexeme : String)
  | str (s : String)
  | arr (elems : List Json)
  | obj (entries : List (String × Json))

/-- JSON whitespace, as in RFC 8259 and Go's scanner. -/
def isJsonWs (c : Char) : Bool :=
  c = ' ' ∨ c = '\t' ∨ c = '\n' ∨ c = '\r'

/-- Drop leading JSON whitespace. -/
def skipWs (cs : List Char) : List Char :=
  cs.dropWhile isJsonWs

/-- Parse the remainder of a JSON string literal (the opening quote is
already consumed), handling the escape sequences Go's decoder accepts. -/
def parseStringRest : List Char → Option (List Char × List Char)
  | [] => none
  | '"' :: rest => some ([], rest)
  | '\\' :: e :: rest =>
    match e with
    | '"' => (parseStringRest rest).map (fun p => ('"' :: p.1, p.2))
    | '\\' => (parseStringRest rest).map (fun p => ('\\' :: p.1, p.2))
    | '/' => (parseStringRest rest).map (fun p => ('/' :: p.1, p.2))
    | 'b' => (parseStringRest rest).map (fun p => (Char.ofNat 8 :: p.1, p.2))
    | 'f' => (parseStringRest rest).map (fun p => (Char.ofNat 12 :: p.1, p.2))
    | 'n' => (parseStringRest rest).map (fun p => ('\n' :: p.1, p.2))
    | 'r' => (parseStringRest rest).map (fun p => ('\r' :: p.1, p.2))
    | 't' => (parseStringRest rest).map (fun p => ('\t' :: p.1, p.2))
    | 'u' =>
      match rest with
      | h1 :: h2 :: h3 :: h4 :: rest2 =>
        match hexVal h1, hexVal h2, hexVal h3, hexVal h4 with
        | some v1, some v2, some v3, some v4 =>
          let n := 4096 * v1 + 256 * v2 + 16 * v3 + v4
          (parseStringRest rest2).map (fun p => (Char.ofNat n :: p.1, p.2))
        | _, _, _, _ => none
      | _ => none
    | _ => none
  | c :: rest =>
    if c.toNat < 0x20 then none
    else (parseStringRest rest).map (fun p => (c :: p.1, p.2))

/-- Lex the digits of a JSON number after an optional minus sign:
integer part, optional fraction, optional exponent. -/
def parseNumRest (cs : List Char) : Option (List Char × List Char) :=
  let intPart : Option (List Char × List Char) :=
    match cs with
    | '0' :: rest => some (['0'], rest)
    | c :: rest =>
      if c.isDigit then
        some (c :: rest.takeWhile Char.isDigit, rest.dropWhile Char.isDigit)
      else none
    | [] => none
  match intPart with
  | none => none
  | some (ds, rest1) =>
    let fracPart : Option (List Char × List Char) :=
      match rest1 with
      | '.' :: c :: rest2 =>
        if c.isDigit then
          some ('.' :: c :: rest2.takeWhile Char.isDigit, rest2.dropWhile Char.isDigit)
        else none
      | _ => some ([], rest1)
    match fracPart with
    | none => none
    | some (fs, rest2) =>
      match rest2 with
      | 'e' :: rest3 =>
        match rest3.dropWhile (fun c => c = '+' ∨ c = '-') with
        | c :: _ =>
          if c.isDigit then
            some (ds ++ fs ++ 'e' :: rest3.takeWhile (fun c => c = '+' ∨ c = '-')
              ++ (rest3.dropWhile (fun c => c = '+' ∨ c = '-')).takeWhile Char.isDigit,
              (rest3.dropWhile (fun c => c = '+' ∨ c = '-')).dropWhile Char.isDigit)
          else none
        | [] => none
      | 'E' :: rest3 =>
        match rest3.dropWhile (fun c => c = '+' ∨ c = '-') with
        | c :: _ =>
          if c.isDigit then
            some (ds ++ fs ++ 'E' :: rest3.takeWhile (fun c => c = '+' ∨ c = '-')
              ++ (rest3.dropWhile (fun c => c = '+' ∨ c = '-')).takeWhile Char.isDigit,
              (rest3.dropWhile (fun c => c = '+' ∨ c = '-')).dropWhile Char.isDigit)
          else none
        | [] => none
      | _ => some (ds ++ fs, rest2)

mutual

/-- Recursive-descent JSON value parser with explicit fuel; returns the
parsed value and the unconsumed input. -/
def parseValue : Nat → List Char → Option (Json × List Char)
  | 0, _ => none
  | fuel + 1, cs =>
    match skipWs cs with
    | 'n' :: 'u' :: 'l' :: 'l' :: rest => some (Json.null, rest)
    | 't' :: 'r' :: 'u' :: 'e' :: rest => some (Json.bool true, rest)
    | 'f' :: 'a' :: 'l' :: 's' :: 'e' :: rest => some (Json.bool false, rest)
    | '"' :: rest =>
      (parseStringRest rest).map (fun p => (Json.str (String.mk p.1), p.2))
    | '-' :: rest =>
      (parseNumRest rest).map (fun p => (Json.num (String.mk ('-' :: p.1)), p.2))
    | '[' :: rest =>
      match skipWs rest with
      | ']' :: rest2 => some (Json.arr [], rest2)
      | _ =>
        match parseValue fuel rest with
        | none => none
        | some (v, rest1) => parseArrElems fuel [v] rest1
    | '\x7b' :: rest =>
      match skipWs rest with
      | '\x7d' :: rest2 => some (Json.obj [], rest2)
      | _ => parseObjEntry fuel [] rest
    | c :: rest =>
      if c.isDigit then
        (parseNumRest (c :: rest)).map (fun p => (Json.num (String.mk p.1), p.2))
      else none
    | [] => none

/-- Remaining array elements, accumulated in reverse. -/
def parseArrElems : Nat → List Json → List Char → Option (Json × List Char)
  | 0, _, _ => none
  | fuel + 1, acc, cs =>
    match skipWs cs with
    | ']' :: rest => some (Json.arr acc.reverse, rest)
    | ',' :: rest =>
      match parseValue fuel rest with
      | none => none
      | some (v, rest1) => parseArrElems fuel (v :: acc) rest1
    | _ => none

/-- One object entry (key, colon, value) then the following entries. -/
def parseObjEntry : Nat → List (String × Json) → List Char → Option (Json × List Char)
  | 0, _, _ => none
  | fuel + 1, acc, cs =>
    match skipWs cs with
    | '"' :: rest =>
      match parseStringRest rest with
      | none => none
      | some (key, rest1) =>
        match skipWs rest1 with
        | ':' :: rest2 =>
          match parseValue fuel rest2 with
          | none => none
          | some (v, rest3) => parseObjEntries fuel ((String.mk key, v) :: acc) rest3
        | _ => none
    | _ => none

/-- After an object entry: either the closing brace or a comma and the
next entry. -/
def parseObjEntries : Nat → List (String × Json) → List Char → Option (Json × List Char)
  | 0, _, _ => none
  | fuel + 1, acc, cs =>
    match skipWs cs with
    | '\x7d' :: rest => some (Json.obj acc.reverse, rest)
    | ',' :: rest => parseObjEntry fuel acc rest
    | _ => none

end

/-- Parse a whole string as a single JSON value: the value must consume
the input except for trailing whitespace, as Go's json.Unmarshal demands. -/
def parseJson (s : String) : Option Json :=
  match parseValue (s.length + 1) s.data with
  | none => none
  | some (v, rest) => if skipWs rest = [] then some v else none

/-- Go json.Marshal's escaping of one character inside a string literal:
quote, backslash, the short control escapes, other control characters as
lower-case unicode escapes, and HTML-significant characters escaped as Go
does by default. -/
def goJsonEscapeChar (c : Char) : String :=
  if c = '"' then "\\\""
  else if c = '\\' then "\\\\"
  else if c = '\n' then "\\n"
  else if c = '\r' then "\\r"
  else if c = '\t' then "\\t"
  else if c = '<' then "\\u003c"
  else if c = '>' then "\\u003e"
  else if c = '&' then "\\u0026"
  else if c.toNat < 0x20 then
    "\\u00" ++ String.mk [(hexUpper (c.toNat / 16)).toLower, (hexUpper (c.toNat % 16)).toLower]
  else if c.toNat = 0x2028 then "\\u2028"
  else if c.toNat = 0x2029 then "\\u2029"
  else String.mk [c]

/-- A JSON string literal as Go json.Marshal emits it. -/
def goJsonQuote (s : String) : String :=
  "\"" ++ String.join (s.data.map goJsonEscapeChar) ++ "\""

mutual

/-- Serialization of a JSON value in the format Go's json.Marshal
produces (no added whitespace). -/
def serializeJson : Json → String
  | .null => "null"
  | .bool true => "true"
  | .bool false => "false"
  | .num lexeme => lexeme
  | .str s => goJsonQuote s
  | .arr elems => "[" ++ serializeElems elems ++ "]"
  | .obj entries => "\x7b" ++ serializeEntries entries ++ "\x7d"

/-- Comma-separated array elements. -/
def serializeElems : List Json → String
  | [] => ""
  | [v] => serializeJson v
  | v :: vs => serializeJson v ++ "," ++ serializeElems vs

/-- Comma-separated object entries. -/
def serializeEntries : List (String × Json) → String
  | [] => ""
  | [(k, v)] => goJsonQuote k ++ ":" ++ serializeJson v
  | (k, v) :: es => goJsonQuote k ++ ":" ++ serializeJson v ++ "," ++ serializeEntries es

end

/-- True when every value of a JSON object entry list is a string. -/
def allStringValues (entries : List (String × Json)) : Bool :=
  entries.all (fun e => match e.2 with | Json.str _ => true | _ => false)

/-- HeaderType builds the HTTP header: a mapping of header name to a
single value. -/
abbrev HeaderType : Type := List (String × String)

/-- Add inserts a pair, overwriting the value when the key is present
(Go map assignment). -/
def HeaderType.Add : HeaderType → String → String → HeaderType
  | [], key, value => [(key, value)]
  | (k1, v1) :: rest, key, value =>
    if k1 = key then (key, value) :: rest
    else (k1, v1) :: HeaderType.Add rest key value

/-- Del removes the key when present, and is a no-op otherwise. -/
def HeaderType.Del (header : HeaderType) (key : String) : HeaderType :=
  header.filter (fun p => p.1 ≠ key)

/-- Get returns the held value, or the empty string for an absent key. -/
def HeaderType.Get (header : HeaderType) (key : String) : String :=
  (header.lookup key).getD ""

/-- Clear, as written in the source: the method's receiver is the map
value itself, and the body reassigns a fresh empty map to that local
parameter.  The caller's map is never touched, so the store visible to
the caller after the call is unchanged. -/
def HeaderType.Clear (header : HeaderType) : HeaderType :=
  header

/-! ## url.Values (the ValueStore)

Go's url.Values is a map of string to slice of string.  Modelled as an
association list of key and value sequence, unique keys, first-appearance
order. -/

/-- The data store sent to the server: parameter name to ordered values. -/
abbrev UrlValues : Type := List (String × List String)

/-- url.Values.Add appends a value to the sequence held for a key,
creating the key when absent. -/
def UrlValues.Add : UrlValues → String → String → UrlValues
  | [], key, value => [(key, [value])]
  | (k1, vs1) :: rest, key, value =>
    if k1 = key then (k1, vs1 ++ [value]) :: rest
    else (k1, vs1) :: UrlValues.Add rest key value

/-- All values held for a key (url.Values map access). -/
def UrlValues.getAll (vs : UrlValues) (key : String) : List String :=
  (vs.lookup key).getD []

/-- Add every pair of a list in order (the per-key value order is what
the claims depend on; Go iterates map keys in random order, which only
permutes whole key groups). -/
def UrlValues.addPairs (vs : UrlValues) (ps : List (String × String)) : UrlValues :=
  ps.foldl (fun acc p => UrlValues.Add acc p.1 p.2) vs

/-- Lexicographic (code-point, equivalently UTF-8 byte) order on
character lists, as Go's sort.Strings orders keys. -/
def charListLt : List Char → List Char → Bool
  | [], [] => false
  | [], _ :: _ => true
  | _ :: _, [] => false
  | a :: as, b :: bs =>
    if a.toNat < b.toNat then true
    else if b.toNat < a.toNat then false
    else charListLt as bs

/-- String order used when emitting sorted keys. -/
def strLt (a b : String) : Bool := charListLt a.data b.data

/-- Insert an entry into a key-sorted list (ascending string order). -/
def insertByKey {α : Type} (p : String × α) : List (String × α) → List (String × α)
  | [] => [p]
  | q :: qs => if strLt p.1 q.1 then p :: q :: qs else q :: insertByKey p qs

/-- Sort entries by key, ascending — both url.Values.Encode and Go's
json.Marshal of a map emit keys in sorted order. -/
def sortByKey {α : Type} : List (String × α) → List (String × α)
  | [] => []
  | p :: ps => insertByKey p (sortByKey ps)

/-- Model of Go's url.Values.Encode: keys in sorted order, every value
of a key in sequence, each pair query-escaped and written key=value,
joined with ampersands. -/
def UrlValues.Encode (vs : UrlValues) : String :=
  String.intercalate "&"
    ((sortByKey vs).foldr
      (fun p acc => p.2.map (fun v => queryEscape p.1 ++ "=" ++ queryEscape v) ++ acc) [])

/-- Go json.Marshal applied to url.Values, as an abstract JSON value:
an object with keys in sorted order, each key mapped to the array of its
values (each value a JSON string).  Multi-valued keys stay arrays —
nothing is collapsed. -/
def jsonMarshalValuesAst (vs : UrlValues) : Json :=
  Json.obj ((sortByKey vs).map (fun p => (p.1, Json.arr (p.2.map Json.str))))

/-- The bytes Go's json.Marshal produces for url.Values. -/
def jsonMarshalValues (vs : UrlValues) : String :=
  serializeJson (jsonMarshalValuesAst vs)

/-- The entry list of a JSON object value. -/
def Json.objEntries : Json → List (String × Json)
  | Json.obj entries => entries
  | _ => []

/-! ## Model of Go net/url URL parsing (url.Parse, url.Values parsing)

Only the behaviour the library depends on is modelled: whether parsing
succeeds, and the raw query component.  Validation covers control
characters, the scheme syntax (url.Parse's getScheme), and percent
escapes in the part before the query; the query component itself is
stored raw, exactly as url.Parse does. -/

/-- The parsed pieces of a URL that the library reads. -/
structure URLParts where
  scheme : String
  rawQuery : String
deriving DecidableEq

/-- A control character, which url.Parse rejects. -/
def isCtlChar (c : Char) : Bool :=
  c.toNat < 0x20 ∨ c.toNat = 0x7f

/-- Model of url.Parse's getScheme loop.  Walks the characters: a colon
ends the scheme (an error when no scheme character precedes it); letters
continue; digits and plus, minus, dot continue except in first position,
where the whole input is taken as having no scheme; any other character
means no scheme.  Returns the scheme characters and the remainder, or
none for the missing-protocol-scheme error. -/
def getSchemeAux (orig : List Char) : List Char → List Char → Option (List Char × List Char)
  | acc, c :: cs =>
    if c = ':' then
      if acc.isEmpty then none else some (acc.reverse, cs)
    else if c.isAlpha then getSchemeAux orig (c :: acc) cs
    else if c.isDigit ∨ c = '+' ∨ c = '-' ∨ c = '.' then
      if acc.isEmpty then some ([], orig) else getSchemeAux orig (c :: acc) cs
    else some ([], orig)
  | _, [] => some ([], orig)

/-- Check that every percent sign is followed by two hexadecimal digits,
as url.Parse demands of the host and path components. -/
def validPercents : List Char → Bool
  | [] => true
  | '%' :: c1 :: c2 :: rest =>
    ((hexVal c1).isSome ∧ (hexVal c2).isSome ∧ validPercents rest : Bool)
  | '%' :: _ :: [] => false
  | '%' :: [] => false
  | _ :: rest => validPercents rest

/-- Model of Go's url.Parse restricted to what the library observes.
Rejects control characters, a leading colon with no scheme, and
malformed percent escapes before the query; yields the lower-cased
scheme and the raw query (the part after the first question mark,
fragment removed), which url.Parse stores without validation. -/
def parseURL (s : String) : Option URLParts :=
  let cs := s.data
  if cs.any isCtlChar then none
  else
    let noFrag := cs.takeWhile (fun c => c ≠ '#')
    match getSchemeAux noFrag [] noFrag with
    | none => none
    | some (schemeCs, rest) =>
      let beforeQ := rest.takeWhile (fun c => c ≠ '?')
      let rawQ := (rest.dropWhile (fun c => c ≠ '?')).drop 1
      if validPercents beforeQ then
        some { scheme := String.mk (schemeCs.map Char.toLower), rawQuery := String.mk rawQ }
      else none

/-- Split a character list on a separator character; the empty list
yields one empty segment, mirroring strings.Split. -/
def splitCharsOn (sep : Char) : List Char → List (List Char)
  | [] => [[]]
  | c :: rest =>
    if c = sep then [] :: splitCharsOn sep rest
    else
      match splitCharsOn sep rest with
      | seg :: segs => (c :: seg) :: segs
      | [] => [[c]]

/-- One segment of a query string: skip empty segments, segments holding
a semicolon (rejected by modern Go with an error that url.URL.Query
swallows), and segments whose key or value fails to unescape; otherwise
cut at the first equals sign and unescape both sides. -/
def parseQuerySegment (seg : List Char) : Option (String × String) :=
  if seg.isEmpty then none
  else if seg.contains ';' then none
  else
    let key := String.mk (seg.takeWhile (fun c => c ≠ '='))
    let value := String.mk ((seg.dropWhile (fun c => c ≠ '=')).drop 1)
    match queryUnescape key, queryUnescape value with
    | some k, some v => some (k, v)
    | _, _ => none

/-- Model of url.ParseQuery as consumed through url.URL.Query: the
surviving key/value pairs of the raw query, in appearance order. -/
def parseQuery (s : String) : List (String × String) :=
  ((splitCharsOn '&' s.data).map parseQuerySegment).foldr
    (fun o acc => match o with | some p => p :: acc | none => acc) []

/-! ## The Request structure and its methods (request.go) -/

/-- Proxy holds the proxy server settings. -/
structure Proxy where
  URL : String := ""
  Username : String := ""
  Password : String := ""
deriving DecidableEq

/-- Request is the request-sending structure.  The values and header
fields are nil-able in Go (a nil pointer and a nil map); none models
nil. -/
structure Request where
  URL : String := ""
  Username : String := ""
  Password : String := ""
  Timeout : Int := 0
  Insecure : Bool := false
  Proxy : Proxy := {}
  values : Option UrlValues := none
  header : Option HeaderType := none
deriving DecidableEq

/-- The timeout the client inside Send is built with: the configured
Timeout when positive, else 10 (milliseconds). -/
def Request.clientTimeout (r : Request) : Int :=
  if r.Timeout ≤ 0 then 10 else r.Timeout

/-- The transport settings Transport derives. -/
structure GoTransport where
  proxyURL : Option String := none
  insecureSkipVerify : Bool := false
deriving DecidableEq

/-- The errors Send can return. -/
inductive SendError where
  | transportError
  | bodyReadError
  | statusError (code : Nat) (message : String)
deriving DecidableEq

/-- The response metadata the caller receives (http.Response fields the
library reads). -/
structure Response where
  StatusCode : Nat
  Status : String
deriving DecidableEq

/-- The outcome of client.Do and the subsequent body read, which depend
on the network: either the call fails before a response exists, or a
response with a status arrives whose body stream is then either fully
read (some bytes) or fails mid-read (none). -/
inductive DoOutcome where
  | doFail
  | doResp (code : Nat) (status : String) (bodyRead : Option (List Nat))
deriving DecidableEq

/-- Transport (request.go lines 111-137): when a proxy URL is set it
must parse — else the error is returned — and when both proxy
credentials are non-empty a basic-auth header is appended to the
request's headers under the name the source writes,
Proxy-Ahthorization.  Independently, an https target URL together with
the Insecure flag disables certificate verification.  Takes and returns
the outbound request's header list (http.Header.Add appends). -/
def Request.Transport (r : Request) (reqHeaders : List (String × String)) :
    Option (GoTransport × List (String × String)) :=
  let tlsFlag := r.URL.startsWith "https://" && r.Insecure
  if r.Proxy.URL ≠ "" then
    match parseURL r.Proxy.URL with
    | none => none
    | some _ =>
      let hs :=
        if r.Proxy.Username ≠ "" ∧ r.Proxy.Password ≠ "" then
          reqHeaders ++ [("Proxy-Ahthorization",
            "Basic " ++ base64Encode (strBytes (r.Proxy.Username ++ ":" ++ r.Proxy.Password)))]
        else reqHeaders
      some ({ proxyURL := some r.Proxy.URL, insecureSkipVerify := tlsFlag }, hs)
  else some ({ proxyURL := none, insecureSkipVerify := tlsFlag }, reqHeaders)

/-- Send (request.go lines 140-174), as a function of the network
outcome: a failed client.Do returns nil body, nil response and the
transport error; a failed body read returns nil body, nil response and
the read error; a fully read body with a status outside 200-299 returns
the body, the response and a ResponseStatus error carrying the code and
status line; otherwise body, response and nil error. -/
def Request.Send (_r : Request) (outcome : DoOutcome) :
    Option (List Nat) × Option Response × Option SendError :=
  match outcome with
  | DoOutcome.doFail => (none, none, some SendError.transportError)
  | DoOutcome.doResp _ _ none => (none, none, some SendError.bodyReadError)
  | DoOutcome.doResp code status (some buf) =>
    if ¬(200 ≤ code ∧ code ≤ 299) then
      (some buf, some { StatusCode := code, Status := status },
        some (SendError.statusError code status))
    else
      (some buf, some { StatusCode := code, Status := status }, none)

/-- The prefix of a string before its first question mark (Go's
r.URL[:idx] with idx the index of the first question mark). -/
def beforeQuestion (s : String) : String :=
  String.mk (s.data.takeWhile (fun c => c ≠ '?'))

/-- The query-merge step at the top of Get (request.go lines 178-188):
when the URL holds a question mark, parse it; on success add every
query pair into Values() — the store is only touched inside the
per-pair loop, so when the parsed query yields no pairs the values
pointer keeps its previous state, in particular it stays nil; on
parse failure change nothing; either way truncate the URL to the part
before the question mark. -/
def Request.mergeGetQuery (r : Request) : Request :=
  if r.URL.data.contains '?' then
    let r1 :=
      match parseURL r.URL with
      | some u =>
        if (parseQuery u.rawQuery).isEmpty then r
        else { r with values := some (UrlValues.addPairs (r.values.getD []) (parseQuery u.rawQuery)) }
      | none => r
    { r1 with URL := beforeQuestion r.URL }
  else r

/-- Get's request assembly before dispatch: the merged configuration
and the raw query put on the outbound request — set to the encoding of
the value store whenever the store is non-nil, left untouched (none)
when it is nil (request.go lines 190-200). -/
def Request.getPrepare (r : Request) : Request × Option String :=
  let r1 := r.mergeGetQuery
  (r1, r1.values.map UrlValues.Encode)

/-- What Submit assembles before dispatch (request.go lines 231-283):
the truncated URL, the extracted raw query (empty string when none was
extracted or the URL failed to parse), the header store after
Content-Type defaulting, and the body (none models a nil body reader). -/
structure SubmitPrep where
  url : String
  rawQuery : String
  header : HeaderType
  body : Option String
deriving DecidableEq

/-- Submit's assembly (request.go lines 231-283).  Step one: when the
URL holds a question mark, re-encode its parsed query into rawQuery
(left empty when the URL fails to parse) and truncate the URL.  Step
two: default Content-Type to application/x-www-form-urlencoded when the
header store is nil or holds no Content-Type.  Step three: when the
value store is non-nil, encode it as the body — JSON for the three JSON
content types (json.Marshal of url.Values never errors), URL-encoded
form otherwise; a nil store sends no body. -/
def Request.submitPrepare (r : Request) : SubmitPrep :=
  let url := if r.URL.data.contains '?' then beforeQuestion r.URL else r.URL
  let rawQuery :=
    if r.URL.data.contains '?' then
      match parseURL r.URL with
      | some u => UrlValues.Encode (UrlValues.addPairs [] (parseQuery u.rawQuery))
      | none => ""
    else ""
  let header :=
    if r.header = none ∨ HeaderType.Get (r.header.getD []) "Content-Type" = "" then
      HeaderType.Add (r.header.getD []) "Content-Type" "application/x-www-form-urlencoded"
    else r.header.getD []
  let body :=
    match r.values with
    | none => none
    | some vs =>
      let ct := HeaderType.Get header "Content-Type"
      if ct = "application/json" ∨ ct = "text/json" ∨ ct = "text/x-json" then
        some (jsonMarshalValues vs)
      else
        some (UrlValues.Encode vs)
  { url := url, rawQuery := rawQuery, header := header, body := body }

/-- Spec-side shape test, following the specification's words: the text
is a valid flat JSON object whose every value is a string.  Used to
state the claims that classify inputs and bodies by that shape; compare
with unmarshalStringMap, the model of what the code actually accepts. -/
def specFlatStringObject (s : String) : Bool :=
  match parseJson s with
  | some (Json.obj entries) => allStringValues entries
  | _ => false

/-- The values a pair list carries for one key, in order. -/
def valuesFor (ps : List (String × String)) (k : String) : List String :=
  (ps.filter (fun p => p.1 = k)).map Prod.snd

theorem getAll_Add_same (vs : UrlValues) (k v : String) :
    (UrlValues.Add vs k v).getAll k = vs.getAll k ++ [v] := by
  induction vs with
  | nil => simp [UrlValues.Add, UrlValues.getAll, List.lookup]
  | cons p rest ih =>
    obtain ⟨k1, vs1⟩ := p
    by_cases h : k1 = k
    · subst h
      simp [UrlValues.Add, UrlValues.getAll, List.lookup]
    · have hb : (k == k1) = false := by
        simp [beq_iff_eq]
        exact fun hh => h hh.symm
      simp [UrlValues.Add, UrlValues.getAll, List.lookup, h, hb] at *
      exact ih

theorem getAll_Add_ne (vs : UrlValues) (k v k' : String) (h : k' ≠ k) :
    (UrlValues.Add vs k v).getAll k' = vs.getAll k' := by
  induction vs with
  | nil =>
    have hb : (k' == k) = false := by simp [beq_iff_eq]; exact h
    simp [UrlValues.Add, UrlValues.getAll, List.lookup, hb]
  | cons p rest ih =>
    obtain ⟨k1, vs1⟩ := p
    by_cases h1 : k1 = k
    · subst h1
      have hb : (k' == k1) = false := by simp [beq_iff_eq]; exact h
      simp [UrlValues.Add, UrlValues.getAll, List.lookup, hb]
    · simp only [UrlValues.Add, if_neg h1]
      by_cases h2 : k' = k1
      · subst h2
        simp [UrlValues.getAll, List.lookup]
      · have hb : (k' == k1) = false := by simp [beq_iff_eq]; exact h2
        simp [UrlValues.getAll, List.lookup, hb] at *
        exact ih

theorem getAll_addPairs (ps : List (String × String)) (vs : UrlValues) (k : String) :
    (UrlValues.addPairs vs ps).getAll k = vs.getAll k ++ valuesFor ps k := by
  induction ps generalizing vs with
  | nil => simp [UrlValues.addPairs, valuesFor]
  | cons p rest ih =>
    obtain ⟨pk, pv⟩ := p
    have hstep : UrlValues.addPairs vs ((pk, pv) :: rest)
        = UrlValues.addPairs (UrlValues.Add vs pk pv) rest := rfl
    rw [hstep, ih]
    by_cases h : pk = k
    · subst h
      rw [getAll_Add_same]
      simp [valuesFor, List.filter]
    · rw [getAll_Add_ne vs pk pv k (fun hh => h hh.symm)]
      simp [valuesFor, List.filter, h]

theorem insertByKey_perm {α : Type} (p : String × α) (l : List (String × α)) :
    List.Perm (insertByKey p l) (p :: l) := by
  induction l with
  | nil => simp [insertByKey]
  | cons q qs ih =>
    cases h : strLt p.1 q.1 with
    | true => simp [insertByKey, h]
    | false =>
      simp only [insertByKey, h, Bool.false_eq_true, if_false]
      exact (ih.cons q).trans (List.Perm.swap p q qs)

theorem sortByKey_perm {α : Type} (l : List (String × α)) :
    List.Perm (sortByKey l) l := by
  induction l with
  | nil => simp [sortByKey]
  | cons p ps ih =>
    exact (insertByKey_perm p (sortByKey ps)).trans (ih.cons p)

/-! ## Claims -/

/-- C1: for every completed HTTP exchange whose body is fully read, Send
returns a nil error exactly when the response status code lies in 200
through 299 inclusive; for any other status code it returns a
ResponseStatus error carrying that status code and the status line,
together with the already-read body bytes and the response metadata —
both non-nil. -/
theorem send_status_classification (r : Request) (code : Nat) (status : String) (buf : List Nat) :
    ((r.Send (DoOutcome.doResp code status (some buf))).2.2 = none
      ↔ (200 ≤ code ∧ code ≤ 299)) ∧
    r.Send (DoOutcome.doResp code status (some buf)) =
      if 200 ≤ code ∧ code ≤ 299 then
        (some buf, some { StatusCode := code, Status := status }, none)
      else
        (some buf, some { StatusCode := code, Status := status },
          some (SendError.statusError code status)) := by
  constructor
  · by_cases h : 200 ≤ code ∧ code ≤ 299
    · simp [Request.Send, h]
    · simp [Request.Send, h]
  · by_cases h : 200 ≤ code ∧ code ≤ 299
    · simp [Request.Send, h]
    · simp [Request.Send, h]

/-- C2 counterexample: a response is received (status 200) but the body
stream fails mid-read; the code returns nil body AND nil response
metadata together with the read error, although the claim requires
non-nil metadata whenever a response was received. -/
theorem send_bodyReadError_nil_metadata :
    Request.Send {} (DoOutcome.doResp 200 "200 OK" none)
      = (none, none, some SendError.bodyReadError) := rfl

/-- C2 amended: the returned response metadata is non-nil exactly when
the exchange produced a response whose body was fully read; it is nil
both on pure transport failure and on a body-read failure. -/
theorem send_metadata_iff_body_fully_read (r : Request) (outcome : DoOutcome) :
    ((r.Send outcome).2.1.isSome = true
      ↔ ∃ code status buf, outcome = DoOutcome.doResp code status (some buf)) := by
  cases outcome with
  | doFail => simp [Request.Send]
  | doResp code status bodyRead =>
    cases bodyRead with
    | none => simp [Request.Send]
    | some buf =>
      constructor
      · intro _
        exact ⟨code, status, buf, rfl⟩
      · intro _
        by_cases h : 200 ≤ code ∧ code ≤ 299
        · simp [Request.Send, h]
        · simp [Request.Send, h]

/-- C3: evaluation of the code at the failing input.  The source's Clear
reassigns a fresh map to its by-value receiver, so the caller's header
store is untouched: after adding User-Agent and calling Clear, Get still
returns the stored value, not the empty string the claim (and the
method's own doc comment) promise. -/
theorem headerClear_leaves_entries :
    HeaderType.Get (HeaderType.Clear [("User-Agent", "TEST - BROWSER")]) "User-Agent"
      = "TEST - BROWSER" := rfl

/-- C9: the client timeout inside Send equals the configured Timeout
when that is positive, and exactly 10 (milliseconds) when it is zero or
negative — never zero and never unbounded. -/
theorem send_timeout_default (r : Request) :
    (0 < r.Timeout → r.clientTimeout = r.Timeout) ∧
    (r.Timeout ≤ 0 → r.clientTimeout = 10) ∧
    0 < r.clientTimeout := by
  unfold Request.clientTimeout
  refine ⟨fun h => ?_, fun h => ?_, ?_⟩
  · rw [if_neg (by omega)]
  · rw [if_pos h]
  · by_cases h : r.Timeout ≤ 0
    · rw [if_pos h]; omega
    · rw [if_neg h]; omega

/-- C9 witness: a positive configured timeout (250) is used as is, a
non-positive one (-5) resolves to 10, and the default is positive. -/
theorem send_timeout_default_witness :
    Request.clientTimeout { Timeout := 250 } = 250 ∧
    Request.clientTimeout { Timeout := -5 } = 10 ∧
    (0 : Int) < Request.clientTimeout { Timeout := 0 } :=
  ⟨(send_timeout_default { Timeout := 250 }).1 (by decide),
   (send_timeout_default { Timeout := -5 }).2.1 (by decide),
   (send_timeout_default { Timeout := 0 }).2.2⟩

/-- C5 counterexample: with a non-empty proxy URL and both proxy
credentials set, the only header Transport attaches is named
Proxy-Ahthorization (the source's spelling); no header named
Proxy-Authorization is present on the outbound request. -/
theorem transport_header_name_misspelled :
    (Request.Transport
        { Proxy := { URL := "http://proxy.example:8080", Username := "user", Password := "pass" } }
        []).map Prod.snd
      = some [("Proxy-Ahthorization", "Basic dXNlcjpwYXNz")] ∧
    List.lookup "Proxy-Authorization" [("Proxy-Ahthorization", "Basic dXNlcjpwYXNz")]
      = none := by
  constructor
  · decide
  · decide

/-- C5 amended: when the proxy URL is non-empty and parses, Transport
appends to the outbound request a header named Proxy-Ahthorization
whose value is Basic followed by the base64 of username:password,
exactly when both proxy credentials are non-empty; when either
credential is empty the request headers are returned unchanged. -/
theorem transport_proxy_auth_header (r : Request) (hs : List (String × String)) (u : URLParts)
    (hurl : r.Proxy.URL ≠ "") (hparse : parseURL r.Proxy.URL = some u) :
    (r.Proxy.Username ≠ "" ∧ r.Proxy.Password ≠ "" →
      (r.Transport hs).map Prod.snd
        = some (hs ++ [("Proxy-Ahthorization",
            "Basic " ++ base64Encode (strBytes (r.Proxy.Username ++ ":" ++ r.Proxy.Password)))])) ∧
    ((r.Proxy.Username = "" ∨ r.Proxy.Password = "") →
      (r.Transport hs).map Prod.snd = some hs) := by
  constructor
  · intro hcred
    simp [Request.Transport, hurl, hparse, hcred]
  · intro hcred
    have hnot : ¬(r.Proxy.Username ≠ "" ∧ r.Proxy.Password ≠ "") := by
      rcases hcred with h | h
      · exact fun hc => hc.1 h
      · exact fun hc => hc.2 h
    simp [Request.Transport, hurl, hparse, hnot]

/-- C5 witness: with proxy credentials user and pass the appended header
value is Basic dXNlcjpwYXNz; with an empty password nothing is
appended. -/
theorem transport_proxy_auth_header_witness :
    (Request.Transport
        { Proxy := { URL := "http://proxy.example:8080", Username := "user", Password := "pass" } }
        [("User-Agent", "x")]).map Prod.snd
      = some [("User-Agent", "x"), ("Proxy-Ahthorization", "Basic dXNlcjpwYXNz")] ∧
    (Request.Transport
        { Proxy := { URL := "http://proxy.example:8080", Username := "user", Password := "" } }
        [("User-Agent", "x")]).map Prod.snd
      = some [("User-Agent", "x")] := by
  constructor
  · exact ((transport_proxy_auth_header
      { Proxy := { URL := "http://proxy.example:8080", Username := "user", Password := "pass" } }
      [("User-Agent", "x")] { scheme := "http", rawQuery := "" }
      (by decide) (by decide)).1 (by decide)).trans (by decide)
  · exact (transport_proxy_auth_header
      { Proxy := { URL := "http://proxy.example:8080", Username := "user", Password := "" } }
      [("User-Agent", "x")] { scheme := "http", rawQuery := "" }
      (by decide) (by decide)).2 (Or.inr rfl)

/-- C6 counterexample: a submission whose ValueStore was initialized but
holds no key/value pairs, under a JSON content type, carries the
two-byte body of an empty JSON object — not no body. -/
theorem submit_empty_store_still_sends_body :
    (Request.submitPrepare
        { URL := "http://localhost/x", values := some [],
          header := some [("Content-Type", "application/json")] }).body
      = some "\x7b\x7d" := rfl

/-- C6 amended: a Submit call carries no body exactly when the
ValueStore was never initialized (the nil pointer); an initialized
store, even an empty one, always produces a body — the empty string
under form encoding or the empty JSON object under a JSON content
type. -/
theorem submit_body_none_iff_values_nil (r : Request) :
    (r.submitPrepare).body = none ↔ r.values = none := by
  unfold Request.submitPrepare
  cases hv : r.values with
  | none => simp
  | some vs =>
    simp only [Option.map]
    constructor
    · intro h
      by_cases hct : (HeaderType.Get
          (if r.header = none ∨ HeaderType.Get (r.header.getD []) "Content-Type" = "" then
            HeaderType.Add (r.header.getD []) "Content-Type" "application/x-www-form-urlencoded"
          else r.header.getD []) "Content-Type") = "application/json"
        ∨ (HeaderType.Get
          (if r.header = none ∨ HeaderType.Get (r.header.getD []) "Content-Type" = "" then
            HeaderType.Add (r.header.getD []) "Content-Type" "application/x-www-form-urlencoded"
          else r.header.getD []) "Content-Type") = "text/json"
        ∨ (HeaderType.Get
          (if r.header = none ∨ HeaderType.Get (r.header.getD []) "Content-Type" = "" then
            HeaderType.Add (r.header.getD []) "Content-Type" "application/x-www-form-urlencoded"
          else r.header.getD []) "Content-Type") = "text/x-json"
      · simp [hct] at h
      · simp [hct] at h
    · intro h
      simp at h

/-- C4 counterexample: a ValueStore holding two values for the key k is
JSON-encoded as an object whose value is an array of two strings — not
a plain object of string values, and nothing is collapsed to a single
string representation. -/
theorem submit_json_multivalue_not_flat :
    (Request.submitPrepare
        { URL := "http://localhost/send", values := some [("k", ["a", "b"])],
          header := some [("Content-Type", "application/json")] }).body
      = some "\x7b\"k\":[\"a\",\"b\"]\x7d" ∧
    specFlatStringObject "\x7b\"k\":[\"a\",\"b\"]\x7d" = false := by
  constructor
  · rfl
  · rfl

/-- C4 amended: for a non-GET submission under a JSON content type the
body is the json.Marshal encoding of the ValueStore: a JSON object
mapping every key of the store to the JSON array of that key's values
in order — multi-valued keys are preserved as arrays, not collapsed to
one string. -/
theorem submit_json_body_keeps_multivalues (r : Request) (vs : UrlValues)
    (k : String) (vals : List String)
    (hv : r.values = some vs)
    (hct : HeaderType.Get (r.header.getD []) "Content-Type" = "application/json"
      ∨ HeaderType.Get (r.header.getD []) "Content-Type" = "text/json"
      ∨ HeaderType.Get (r.header.getD []) "Content-Type" = "text/x-json")
    (hmem : (k, vals) ∈ vs) :
    (r.submitPrepare).body = some (jsonMarshalValues vs) ∧
    (k, Json.arr (vals.map Json.str)) ∈ (jsonMarshalValuesAst vs).objEntries := by
  constructor
  · have hctne : HeaderType.Get (r.header.getD []) "Content-Type" ≠ "" := by
      rcases hct with h | h | h <;> rw [h] <;> decide
    have hhn : ¬r.header = none := by
      intro h
      rw [h] at hctne
      simp [HeaderType.Get, List.lookup, Option.getD] at hctne
    have hne : ¬(r.header = none ∨ HeaderType.Get (r.header.getD []) "Content-Type" = "") := by
      intro hor
      rcases hor with h | h
      · exact hhn h
      · exact hctne h
    rcases hct with h | h | h <;> simp [Request.submitPrepare, hv, hne, hhn, h]
  · have hsorted : (k, vals) ∈ sortByKey vs := (sortByKey_perm vs).mem_iff.mpr hmem
    have := List.mem_map_of_mem
      (fun p : String × List String => (p.1, Json.arr (p.2.map Json.str))) hsorted
    simpa [jsonMarshalValuesAst, Json.objEntries] using this

/-- C4 witness: under the text/json content type — one of the claim's
three JSON content types — the store mapping k to the two values a and
b is encoded with the key mapped to the array of both strings. -/
theorem submit_json_body_keeps_multivalues_witness :
    (Request.submitPrepare
        { URL := "http://localhost/send", values := some [("k", ["a", "b"])],
          header := some [("Content-Type", "text/json")] }).body
      = some (jsonMarshalValues [("k", ["a", "b"])]) ∧
    ("k", Json.arr [Json.str "a", Json.str "b"])
      ∈ (jsonMarshalValuesAst [("k", ["a", "b"])]).objEntries := by
  have h := submit_json_body_keeps_multivalues
    { URL := "http://localhost/send", values := some [("k", ["a", "b"])],
      header := some [("Content-Type", "text/json")] }
    [("k", ["a", "b"])] "k" ["a", "b"] rfl (Or.inr (Or.inl rfl)) (List.Mem.head _)
  exact ⟨h.1, by simpa using h.2⟩

/-- C7: for a GET whose URL contains a question mark, parses, and whose
inline query yields at least one pair through the platform query
parser, every such key/value pair is added into the ValueStore
(appended per key after the caller's own values, with duplicates
preserved), the URL is truncated to the part before the question mark,
and the raw query put on the final request is the URL-encoding of the
merged store.  A query yielding zero pairs never touches the store —
the source only calls Values() inside the per-pair loop — and the
parse-failure case is the subject of C10. -/
theorem get_query_merge (r : Request) (u : URLParts)
    (hq : '?' ∈ r.URL.data)
    (hparse : parseURL r.URL = some u)
    (hpairs : parseQuery u.rawQuery ≠ []) :
    (r.mergeGetQuery).URL = beforeQuestion r.URL ∧
    (r.mergeGetQuery).values
      = some (UrlValues.addPairs (r.values.getD []) (parseQuery u.rawQuery)) ∧
    (r.getPrepare).2
      = some (UrlValues.Encode (UrlValues.addPairs (r.values.getD []) (parseQuery u.rawQuery))) ∧
    ∀ k, (UrlValues.addPairs (r.values.getD []) (parseQuery u.rawQuery)).getAll k
      = (r.values.getD []).getAll k ++ valuesFor (parseQuery u.rawQuery) k := by
  have hni : (parseQuery u.rawQuery).isEmpty = false := by
    cases hcase : parseQuery u.rawQuery with
    | nil => exact absurd hcase hpairs
    | cons p ps => rfl
  refine ⟨?_, ?_, ?_, ?_⟩
  · simp [Request.mergeGetQuery, hq, hparse, hni]
  · simp [Request.mergeGetQuery, hq, hparse, hni]
  · simp [Request.getPrepare, Request.mergeGetQuery, hq, hparse, hni]
  · intro k
    exact getAll_addPairs (parseQuery u.rawQuery) (r.values.getD []) k

/-- C7 witness: GET on a URL carrying key=value&test=true with the
caller having already added key=value merges both sources — the store
then holds key twice — and the final raw query preserves the duplicate
pair. -/
theorem get_query_merge_witness :
    (Request.mergeGetQuery
        { URL := "http://localhost/path?key=value&test=true", values := some [("key", ["value"])] }).URL
      = "http://localhost/path" ∧
    (Request.mergeGetQuery
        { URL := "http://localhost/path?key=value&test=true", values := some [("key", ["value"])] }).values
      = some [("key", ["value", "value"]), ("test", ["true"])] ∧
    (Request.getPrepare
        { URL := "http://localhost/path?key=value&test=true", values := some [("key", ["value"])] }).2
      = some "key=value&key=value&test=true" ∧
    UrlValues.getAll [("key", ["value", "value"]), ("test", ["true"])] "key"
      = ["value"] ++ ["value"] := by
  have h := get_query_merge
    { URL := "http://localhost/path?key=value&test=true", values := some [("key", ["value"])] }
    { scheme := "http", rawQuery := "key=value&test=true" }
    (by decide) (by decide) (by decide)
  refine ⟨h.1.trans (by decide), h.2.1.trans (by decide), h.2.2.1.trans (by decide), ?_⟩
  · decide

/-- C10: when the URL contains a question mark but fails to parse, the
query-merge step of both Get and Submit swallows the failure: Get
changes nothing but the URL, which is still truncated at the question
mark (in particular the ValueStore keeps its previous contents), and
Submit likewise truncates the URL while extracting an empty raw query,
so the inline pairs are dropped. -/
theorem query_merge_swallows_parse_failure (r : Request)
    (hq : '?' ∈ r.URL.data)
    (hparse : parseURL r.URL = none) :
    r.mergeGetQuery = { r with URL := beforeQuestion r.URL } ∧
    (r.submitPrepare).url = beforeQuestion r.URL ∧
    (r.submitPrepare).rawQuery = "" := by
  refine ⟨?_, ?_, ?_⟩
  · simp [Request.mergeGetQuery, hq, hparse]
  · simp [Request.submitPrepare, hq]
  · simp [Request.submitPrepare, hq, hparse]

/-- C10 witness: the URL ://localhost/a?x=1 fails to parse; the inline
pair x=1 is dropped while the URL is still truncated, the store is
untouched, and Submit extracts no query. -/
theorem query_merge_swallows_parse_failure_witness :
    Request.mergeGetQuery { URL := "://localhost/a?x=1", values := some [("k", ["v"])] }
      = { URL := "://localhost/a", values := some [("k", ["v"])] } ∧
    (Request.submitPrepare { URL := "://localhost/a?x=1", values := some [("k", ["v"])] }).url
      = "://localhost/a" ∧
    (Request.submitPrepare { URL := "://localhost/a?x=1", values := some [("k", ["v"])] }).rawQuery
      = "" := by
  have h := query_merge_swallows_parse_failure
    { URL := "://localhost/a?x=1", values := some [("k", ["v"])] }
    (by decide) (by decide)
  exact ⟨h.1.trans (by decide), h.2.1.trans (by decide), h.2.2⟩

end RequestLib
